import Mathlib

/-!
Verification development for the memflow repository core
(`memflow/src/types/pointer32.rs`, `memflow-win32/src/kernel/lowstub/x86pae.rs`,
`memflow-win32/src/win32/process.rs`).

Machine integers are modelled as `Nat` with explicit `% 2^w` where overflow
matters; byte buffers (`&[u8]`) are modelled as a length together with an
index function; fallible code returns `Except`.
-/

namespace Win32

/-- Error type of the memflow-win32 crate (`memflow-win32/src/error.rs` is not
in the sources; constructors follow the variants used by the files under
verification: `Initialization`, `ModuleInfo`, `InvalidArchitecture`, `Other`). -/
inductive Error where
  | Initialization (msg : String)
  | ModuleInfo
  | InvalidArchitecture
  | Other (msg : String)
  deriving DecidableEq, Repr

/-- Architecture tag (`memflow_core::architecture::Architecture`); only the
constructors relevant to the verified code. -/
inductive Architecture where
  | X86
  | X86Pae
  | X64
  deriving DecidableEq, Repr

/-- `StartBlock { arch, kernel_hint, dtb }` produced by DTB discovery.
Addresses are u64 values modelled as `Nat`. -/
structure StartBlock where
  arch : Architecture
  kernel_hint : Nat
  dtb : Nat
  deriving DecidableEq, Repr

/-- A `&[u8]` byte buffer: a length and the byte at each index below `len`. -/
structure Buffer where
  len : Nat
  byte : Nat → Nat

/-- `u64::from_le_bytes` of the eight bytes `byteAt off, …, byteAt (off+7)`. -/
def readWordLE (byteAt : Nat → Nat) (off : Nat) : Nat :=
  byteAt off +
    0x100 * (byteAt (off + 1) +
      0x100 * (byteAt (off + 2) +
        0x100 * (byteAt (off + 3) +
          0x100 * (byteAt (off + 4) +
            0x100 * (byteAt (off + 5) +
              0x100 * (byteAt (off + 6) +
                0x100 * byteAt (off + 7)))))))

/-- The signature word of the x86-PAE low stub at word index `i`:
`addr.as_u64() + ((i * 8) << 9) + 0x1001` (x86pae.rs line 13). -/
def paeWord (addr i : Nat) : Nat :=
  addr + ((i * 8) <<< 9) + 0x1001

/-- `check_page` (x86pae.rs lines 10-20): iterate over the complete 8-byte
little-endian words of the chunk (`chunks_exact(8)`, i.e. word indices
`i < len / 8`); words `i < 4` must equal the signature, later words must be
zero; any mismatch returns `false`, otherwise `true`. -/
def check_page (addr : Nat) (byteAt : Nat → Nat) (len : Nat) : Bool :=
  (List.range (len / 8)).all fun i =>
    if i < 4 then readWordLE byteAt (8 * i) == paeWord addr i
    else readWordLE byteAt (8 * i) == 0

/-- Page size used by the scanner (`architecture::x86_pae::page_size()`). -/
def page_size : Nat := 0x1000

/-- Number of page chunks of a buffer of length `len`. Modelled from the spec:
`PageChunks` (memflow_core::iter, not in the sources) splits the buffer from
address 0 into consecutive `page_size`-byte chunks, the last one possibly
shorter, each produced exactly once in increasing address order. -/
def numChunks (len : Nat) : Nat :=
  (len + (page_size - 1)) / page_size

/-- Length of chunk `k` of a buffer of length `len` (full pages except for a
shorter final chunk). -/
def chunkLen (len k : Nat) : Nat :=
  min page_size (len - page_size * k)

/-- `check_page` applied to chunk `k` of the buffer, exactly as `find` does:
the chunk starts at address `page_size * k` and holds the buffer bytes from
that offset on. -/
def chunkOK (buf : Buffer) (k : Nat) : Bool :=
  check_page (page_size * k) (fun j => buf.byte (page_size * k + j))
    (chunkLen buf.len k)

/-- `Iterator::find` over chunk indices `k, k+1, …` with `n` chunks left:
the first index satisfying `p`, if any. -/
def findFirst (p : Nat → Bool) : Nat → Nat → Option Nat
  | 0, _ => none
  | n + 1, k => if p k then some k else findFirst p n (k + 1)

/-- `find` (x86pae.rs lines 22-31): scan the page chunks from address 0 in
increasing order; the first chunk accepted by `check_page` yields
`StartBlock { arch: X86Pae, kernel_hint: 0, dtb: chunk address }`; if none is
accepted the result is the `Initialization` error. -/
def find (buf : Buffer) : Except Error StartBlock :=
  match findFirst (chunkOK buf) (numChunks buf.len) 0 with
  | some k => Except.ok ⟨Architecture.X86Pae, 0, page_size * k⟩
  | none => Except.error (Error.Initialization "unable to find x86_pae dtb in lowstub < 16M")

/-- A one-page buffer whose single 8-byte word is the PAE signature word for
address 0: `0x1001` in little-endian order. -/
def demoBuf : Buffer :=
  ⟨8, fun j => [0x01, 0x10, 0, 0, 0, 0, 0, 0].getD j 0⟩

/-- Little-endian bytes of the four quadwords listed by the spec scenario:
{0x1A1001, 0x1A3001, 0x1A5001, 0x1A7001}. -/
def stubBytes : List Nat :=
  [0x01, 0x10, 0x1A, 0, 0, 0, 0, 0,
   0x01, 0x30, 0x1A, 0, 0, 0, 0, 0,
   0x01, 0x50, 0x1A, 0, 0, 0, 0, 0,
   0x01, 0x70, 0x1A, 0, 0, 0, 0, 0]

/-- The 16 MiB physical image of the scenario: all zeros except the 32 stub
bytes at physical address 0x1A0000. -/
def image16 : Buffer :=
  ⟨0x1000000, fun n =>
    if 0x1A0000 ≤ n ∧ n < 0x1A0020 then stubBytes.getD (n - 0x1A0000) 0 else 0⟩

/-- Litte-endian bytes of the quadwords the code actually requires at
0x1A0000, namely `0x1A0000 + ((i * 8) << 9) + 0x1001`:
{0x1A1001, 0x1A2001, 0x1A3001, 0x1A4001}. -/
def stubBytesFixed : List Nat :=
  [0x01, 0x10, 0x1A, 0, 0, 0, 0, 0,
   0x01, 0x20, 0x1A, 0, 0, 0, 0, 0,
   0x01, 0x30, 0x1A, 0, 0, 0, 0, 0,
   0x01, 0x40, 0x1A, 0, 0, 0, 0, 0]

/-- The 16 MiB physical image with the signature the code accepts at
0x1A0000. -/
def image16Fixed : Buffer :=
  ⟨0x1000000, fun n =>
    if 0x1A0000 ≤ n ∧ n < 0x1A0020 then stubBytesFixed.getD (n - 0x1A0000) 0 else 0⟩

/-- `MAX_ITER_COUNT` (process.rs line 30). -/
def MAX_ITER_COUNT : Nat := 65536

/-- Result of a module-list walk: the addresses passed to the callback in
order, the number of Flink reads issued, the final callback state, and the
returned `Result<()>` of `module_entry_list_callback`. -/
structure WalkResult (σ ε : Type) where
  calls : List Nat
  reads : Nat
  state : σ
  result : Except ε Unit
  deriving Repr

/-- The `for _ in 0..MAX_ITER_COUNT` loop of `module_entry_list_callback`
(process.rs lines 93-105) with `fuel` iterations left. Each iteration invokes
the callback on the current entry (`callback.call`, modelled as a state
transformer `cb` returning the continue flag) and breaks if it returned
false; otherwise it reads the Flink at the entry (`virt_read_addr_arch`,
modelled by `read`; a read error is propagated by `?`) and breaks when the
link is null, misaligned (low three bits set, i.e. `next % 8 ≠ 0`), or equal
to `module_base`. -/
def walkLoop {σ ε : Type} (read : Nat → Except ε Nat) (cb : σ → Nat → σ × Bool)
    (module_base : Nat) : Nat → Nat → σ → WalkResult σ ε
  | 0, _, s => ⟨[], 0, s, Except.ok ()⟩
  | fuel + 1, entry, s =>
    if (cb s entry).2 = false then ⟨[entry], 0, (cb s entry).1, Except.ok ()⟩
    else
      match read entry with
      | Except.error e => ⟨[entry], 1, (cb s entry).1, Except.error e⟩
      | Except.ok next =>
        if next = 0 ∨ next % 8 ≠ 0 ∨ next = module_base then
          ⟨[entry], 1, (cb s entry).1, Except.ok ()⟩
        else
          let r := walkLoop read cb module_base fuel next (cb s entry).1
          ⟨entry :: r.calls, r.reads + 1, r.state, r.result⟩

/-- `module_entry_list_callback` (process.rs lines 85-108): the walk starts at
`list_start = module_base` with the full iteration budget. -/
def module_entry_list_callback {σ ε : Type} (read : Nat → Except ε Nat)
    (cb : σ → Nat → σ × Bool) (module_base : Nat) (s : σ) : WalkResult σ ε :=
  walkLoop read cb module_base MAX_ITER_COUNT module_base s

/-- The concrete memory of the C2 scenario: the head at 0x1000 links to the
single entry at 0x2000, whose own Flink is 0x1000 | 0b100; everything else is
unmapped. -/
def readC2 : Nat → Except Error Nat := fun a =>
  if a = 0x1000 then Except.ok 0x2000
  else if a = 0x2000 then Except.ok (0x1000 ||| 0b100)
  else Except.error (Error.Other "unmapped")

/-- A five-byte all-zero buffer: a single chunk shorter than 8 bytes. -/
def tinyBuf : Buffer := ⟨5, fun _ => 0⟩

/-- `Win32ArchOffsets` (memflow-win32/src/offsets, not in the sources).
Modelled from the spec: a read-only table of byte offsets into Windows kernel
structures; only the fields the core uses. -/
structure Win32ArchOffsets where
  peb_ldr : Nat
  ldr_list : Nat
  ldr_data_base : Nat
  ldr_data_size : Nat
  ldr_data_full_name : Nat
  ldr_data_base_name : Nat
  deriving DecidableEq, Repr

/-- `Win32ModuleListInfo` (process.rs lines 32-38): the loader list head and
the offsets table. -/
structure Win32ModuleListInfo where
  module_base : Nat
  offsets : Win32ArchOffsets
  deriving DecidableEq, Repr

/-- `ProcessInfo` (memflow::os, not in the sources). Modelled from the spec:
{address, pid, name, sys_arch, proc_arch}. -/
structure ProcessInfo where
  address : Nat
  pid : Nat
  name : String
  sys_arch : Architecture
  proc_arch : Architecture
  deriving DecidableEq, Repr

/-- `Win32ProcessInfo` (process.rs lines 145-168). Addresses are u64 `Nat`
values, optional ones `Option Nat`; `exit_status` is an i32. -/
structure Win32ProcessInfo where
  base : ProcessInfo
  dtb : Nat
  section_base : Nat
  exit_status : Int
  ethread : Nat
  wow64 : Nat
  teb : Option Nat
  teb_wow64 : Option Nat
  peb_native : Nat
  peb_wow64 : Option Nat
  module_info_native : Win32ModuleListInfo
  module_info_wow64 : Option Win32ModuleListInfo
  deriving DecidableEq, Repr

/-- `Win32ProcessInfo::module_info` (process.rs lines 195-201):
`if !self.wow64.is_null() { self.module_info_wow64.unwrap() } else { self.module_info_native }`;
the `unwrap` of an absent value is a panic, modelled by returning `none`. -/
def Win32ProcessInfo.module_info (p : Win32ProcessInfo) : Option Win32ModuleListInfo :=
  if p.wow64 ≠ 0 then p.module_info_wow64 else some p.module_info_native

/-- `Win32ProcessInfo::module_info_native` (process.rs lines 203-205): the
plain field getter (primed because the field projection carries the source
name). -/
def Win32ProcessInfo.module_info_native' (p : Win32ProcessInfo) : Win32ModuleListInfo :=
  p.module_info_native

/-- A concrete offsets table for the witnesses. -/
def demoOffsets : Win32ArchOffsets := ⟨0x18, 0x10, 0x30, 0x40, 0x48, 0x58⟩

/-- A concrete native module-list info. -/
def demoNative : Win32ModuleListInfo := ⟨0x1000, demoOffsets⟩

/-- A concrete WoW64 module-list info. -/
def demoWow64 : Win32ModuleListInfo := ⟨0x2000, demoOffsets⟩

/-- A concrete WoW64 process satisfying the C4 invariant. -/
def demoProc : Win32ProcessInfo :=
  ⟨⟨0x5000, 42, "demo.exe", Architecture.X64, Architecture.X86⟩, 0x3000, 0x4000,
    259, 0x6000, 0x7FFE0000, none, none, 0x8000, some 0x9000,
    demoNative, some demoWow64⟩

end Win32

namespace Memflow

/-- Error type of the memflow crate (`memflow/src/error.rs` is not in the
sources); `Bounds` is the out-of-bounds variant the pointer conversions
return. -/
inductive Error where
  | Bounds
  | Other (msg : String)
  deriving DecidableEq, Repr

/-- `Pointer32<T>` (pointer32.rs lines 82-87): a `#[repr(transparent)]`
32-bit address with a phantom type parameter. The phantom `T` enters the
operations only through `size_of::<T>()`, which the embedding passes
explicitly as `sizeT` (the spec's layout-descriptor encoding); `address` is
a u32, kept below 2^32 by explicit reduction where arithmetic can
overflow. -/
structure Pointer32 where
  address : Nat
  deriving DecidableEq, Repr

/-- One past the largest u32 value. -/
def U32_LIMIT : Nat := 2 ^ 32

/-- `Pointer32::as_u32` (pointer32.rs line 166). -/
def Pointer32.as_u32 (p : Pointer32) : Nat :=
  p.address

/-- `Pointer32::as_u64` (pointer32.rs line 182): widening keeps the value. -/
def Pointer32.as_u64 (p : Pointer32) : Nat :=
  p.address

/-- `TryFrom<u64> for Pointer32` (pointer32.rs lines 304-317): succeed with
the same address iff the u64 value fits in 32 bits, else `Error::Bounds`. -/
def Pointer32.try_from (address : Nat) : Except Error Pointer32 :=
  if address ≤ 0xFFFFFFFF then Except.ok ⟨address⟩ else Except.error Error.Bounds

/-- `TryFrom<Address> for Pointer32` (pointer32.rs lines 321-334); `Address`
wraps a u64 and the comparison is on `address.as_u64()`. -/
def Pointer32.try_from_address (address : Nat) : Except Error Pointer32 :=
  if address ≤ 0xFFFFFFFF then Except.ok ⟨address⟩ else Except.error Error.Bounds

/-- `ops::Add<usize> for Pointer32` (pointer32.rs lines 359-369):
`self.address + (other * size_of::<T>()) as u32` — the usize product is
truncated to 32 bits by `as u32` and the u32 addition wraps modulo 2^32
(release-mode semantics; a debug build would panic on overflow). -/
def Pointer32.add (sizeT : Nat) (p : Pointer32) (other : Nat) : Pointer32 :=
  ⟨(p.address + (other * sizeT) % U32_LIMIT) % U32_LIMIT⟩

/-- `ops::Sub<usize> for Pointer32` (pointer32.rs lines 370-380):
`self.address - (other * size_of::<T>()) as u32` in wrapping u32
arithmetic. -/
def Pointer32.sub (sizeT : Nat) (p : Pointer32) (other : Nat) : Pointer32 :=
  ⟨(p.address + U32_LIMIT - (other * sizeT) % U32_LIMIT) % U32_LIMIT⟩

/-- `Pointer32::<[T]>::at` (pointer32.rs lines 231-237):
`self.address + (i * size_of::<T>()) as u32`, the same u32 arithmetic as
`Add` (`at` is a reserved word in Lean, hence the primed name). -/
def Pointer32.at' (sizeT : Nat) (p : Pointer32) (i : Nat) : Pointer32 :=
  ⟨(p.address + (i * sizeT) % U32_LIMIT) % U32_LIMIT⟩

end Memflow

namespace Win32

theorem findFirst_eq_none {p : Nat → Bool} :
    ∀ n k, findFirst p n k = none ↔ ∀ j, k ≤ j → j < k + n → p j = false := by
  intro n
  induction n with
  | zero =>
    intro k
    simp only [findFirst]
    constructor
    · intro _ j h1 h2
      omega
    · intro _
      trivial
  | succ n ih =>
    intro k
    simp only [findFirst]
    cases hpk : p k with
    | false =>
      rw [if_neg Bool.false_ne_true, ih (k + 1)]
      constructor
      · intro h j hkj hjn
        rcases Nat.eq_or_lt_of_le hkj with rfl | hlt
        · exact hpk
        · exact h j hlt (by omega)
      · intro h j hkj hjn
        exact h j (by omega) (by omega)
    | true =>
      rw [if_pos rfl]
      constructor
      · intro h
        exact Option.noConfusion h
      · intro h
        have hk := h k (le_refl k) (by omega)
        rw [hpk] at hk
        exact Bool.noConfusion hk

theorem check_page_iff (addr : Nat) (byteAt : Nat → Nat) (len : Nat) :
    check_page addr byteAt len = true ↔
      ∀ i, i < len / 8 →
        (i < 4 → readWordLE byteAt (8 * i) = paeWord addr i) ∧
        (4 ≤ i → readWordLE byteAt (8 * i) = 0) := by
  simp only [check_page, List.all_eq_true, List.mem_range]
  constructor
  · intro h i hi
    have hx := h i hi
    constructor
    · intro h4
      rw [if_pos h4] at hx
      exact eq_of_beq hx
    · intro h4
      rw [if_neg (by omega)] at hx
      exact eq_of_beq hx
  · intro h i hi
    rcases h i hi with ⟨h1, h2⟩
    by_cases h4 : i < 4
    · rw [if_pos h4, h1 h4]
      exact beq_self_eq_true _
    · rw [if_neg h4, h2 (by omega)]
      exact beq_self_eq_true _

theorem check_page_eq_false_of_word (addr : Nat) (byteAt : Nat → Nat) (len i : Nat)
    (hi : i < len / 8) (h4 : i < 4)
    (hne : readWordLE byteAt (8 * i) ≠ paeWord addr i) :
    check_page addr byteAt len = false := by
  cases hc : check_page addr byteAt len with
  | false => rfl
  | true => exact absurd (((check_page_iff addr byteAt len).mp hc i hi).1 h4) hne

theorem readWordLE_eq_zero {byteAt : Nat → Nat} {off : Nat}
    (h : ∀ t, t < 8 → byteAt (off + t) = 0) : readWordLE byteAt off = 0 := by
  unfold readWordLE
  rw [show byteAt off = byteAt (off + 0) by rw [Nat.add_zero],
    h 0 (by omega), h 1 (by omega), h 2 (by omega), h 3 (by omega),
    h 4 (by omega), h 5 (by omega), h 6 (by omega), h 7 (by omega)]

theorem chunkOK_eq_false_of_zero (buf : Buffer) (j : Nat)
    (hlen : 8 ≤ chunkLen buf.len j)
    (hz : ∀ t, t < 8 → buf.byte (page_size * j + t) = 0) :
    chunkOK buf j = false := by
  show check_page (page_size * j) (fun jj => buf.byte (page_size * j + jj))
    (chunkLen buf.len j) = false
  apply check_page_eq_false_of_word _ _ _ 0 (by omega) (by omega)
  have hw : readWordLE (fun jj => buf.byte (page_size * j + jj)) (8 * 0) = 0 := by
    apply readWordLE_eq_zero
    intro t ht
    show buf.byte (page_size * j + (8 * 0 + t)) = 0
    rw [show 8 * 0 + t = t from by omega]
    exact hz t ht
  rw [hw]
  simp only [paeWord, Nat.shiftLeft_eq, page_size]
  omega

theorem findFirst_eq_some {p : Nat → Bool} :
    ∀ n k m, k ≤ m → m < k + n → p m = true →
      (∀ j, k ≤ j → j < m → p j = false) →
      findFirst p n k = some m := by
  intro n
  induction n with
  | zero => intro k m h1 h2; omega
  | succ n ih =>
    intro k m h1 h2 hm hbefore
    simp only [findFirst]
    rcases Nat.eq_or_lt_of_le h1 with rfl | hlt
    · rw [hm, if_pos rfl]
    · have hk : p k = false := hbefore k (le_refl k) hlt
      rw [hk, if_neg Bool.false_ne_true]
      exact ih (k + 1) m (by omega) (by omega) hm fun j hj1 hj2 =>
        hbefore j (by omega) hj2

/-- If chunk `m` matches and no earlier chunk does, `find` returns the
start block at chunk `m`. -/
theorem find_eq_ok_first (buf : Buffer) (m : Nat) (hm : m < numChunks buf.len)
    (hok : chunkOK buf m = true) (hbefore : ∀ j, j < m → chunkOK buf j = false) :
    find buf = Except.ok ⟨Architecture.X86Pae, 0, page_size * m⟩ := by
  have hff : findFirst (chunkOK buf) (numChunks buf.len) 0 = some m :=
    findFirst_eq_some _ 0 m (Nat.zero_le m) (by omega) hok fun j _ hj => hbefore j hj
  simp [find, hff]

/-- If no chunk matches, `find` fails with the `Initialization` error. -/
theorem find_eq_error_of_all_false (buf : Buffer)
    (h : ∀ k, k < numChunks buf.len → chunkOK buf k = false) :
    find buf =
      Except.error (Error.Initialization "unable to find x86_pae dtb in lowstub < 16M") := by
  have hff : findFirst (chunkOK buf) (numChunks buf.len) 0 = none := by
    rw [findFirst_eq_none]
    intro j h0 hj
    exact h j (by omega)
  simp [find, hff]

/-- Among the chunks that match there is a least one. -/
theorem exists_least_chunkOK (buf : Buffer) (k : Nat) (hok : chunkOK buf k = true) :
    ∃ m, m ≤ k ∧ chunkOK buf m = true ∧ ∀ j, j < m → chunkOK buf j = false := by
  have hex : ∃ m, chunkOK buf m = true := ⟨k, hok⟩
  refine ⟨Nat.find hex, Nat.find_min' hex hok, Nat.find_spec hex, ?_⟩
  intro j hj
  cases hc : chunkOK buf j with
  | false => rfl
  | true => exact absurd hc (Nat.find_min hex hj)

/-- C1: x86-PAE DTB discovery over a byte buffer scanned from physical address
0 in page-sized chunks returns `Ok (StartBlock {arch: X86Pae, kernel_hint: 0,
dtb})` with `dtb` the lowest chunk address whose page content matches the PAE
low-stub signature, and fails with the `Initialization` error if and only if
no chunk matches. -/
theorem find_x86pae_characterization (buf : Buffer) :
    (∀ k, k < numChunks buf.len → chunkOK buf k = true →
      ∃ m, m ≤ k ∧ chunkOK buf m = true ∧ (∀ j, j < m → chunkOK buf j = false) ∧
        find buf = Except.ok ⟨Architecture.X86Pae, 0, page_size * m⟩) ∧
    ((∃ e, find buf = Except.error e) ↔
      ∀ k, k < numChunks buf.len → chunkOK buf k = false) ∧
    (∀ e, find buf = Except.error e →
      e = Error.Initialization "unable to find x86_pae dtb in lowstub < 16M") := by
  refine ⟨?_, ⟨?_, ?_⟩, ?_⟩
  · intro k hk hok
    obtain ⟨m, hmk, hm, hmin⟩ := exists_least_chunkOK buf k hok
    exact ⟨m, hmk, hm, hmin, find_eq_ok_first buf m (by omega) hm hmin⟩
  · rintro ⟨e, he⟩ k hk
    cases hok : chunkOK buf k with
    | false => rfl
    | true =>
      obtain ⟨m, hmk, hm, hmin⟩ := exists_least_chunkOK buf k hok
      rw [find_eq_ok_first buf m (by omega) hm hmin] at he
      exact Except.noConfusion he
  · intro hall
    exact ⟨_, find_eq_error_of_all_false buf hall⟩
  · intro e he
    unfold find at he
    cases hff : findFirst (chunkOK buf) (numChunks buf.len) 0 with
    | some m =>
      rw [hff] at he
      exact Except.noConfusion he
    | none =>
      rw [hff] at he
      injection he with h
      exact h.symm

/-- Witness for C1 at the concrete buffer `demoBuf`. -/
theorem find_x86pae_characterization_witness :
    find demoBuf = Except.ok ⟨Architecture.X86Pae, 0, 0⟩ := by
  obtain ⟨m, hm0, -, -, hfind⟩ :=
    (find_x86pae_characterization demoBuf).1 0 (by decide) (by decide)
  have hm : m = 0 := Nat.le_zero.mp hm0
  subst hm
  simpa using hfind

theorem image16_byte_zero {n : Nat} (h : n < 0x1A0000 ∨ 0x1A0020 ≤ n) :
    image16.byte n = 0 := by
  show (if 0x1A0000 ≤ n ∧ n < 0x1A0020 then stubBytes.getD (n - 0x1A0000) 0 else 0) = 0
  rw [if_neg (by omega)]

theorem image16_chunk_false {j : Nat} (hj : j < 4096) (hne : j ≠ 416) :
    chunkOK image16 j = false := by
  apply chunkOK_eq_false_of_zero
  · have hlen : image16.len = 0x1000000 := rfl
    simp only [chunkLen, page_size, hlen]
    omega
  · intro t ht
    apply image16_byte_zero
    simp only [page_size]
    omega

theorem image16Fixed_byte_zero {n : Nat} (h : n < 0x1A0000 ∨ 0x1A0020 ≤ n) :
    image16Fixed.byte n = 0 := by
  show (if 0x1A0000 ≤ n ∧ n < 0x1A0020 then stubBytesFixed.getD (n - 0x1A0000) 0 else 0) = 0
  rw [if_neg (by omega)]

theorem image16Fixed_chunk_false {j : Nat} (hj : j < 4096) (hne : j ≠ 416) :
    chunkOK image16Fixed j = false := by
  apply chunkOK_eq_false_of_zero
  · have hlen : image16Fixed.len = 0x1000000 := rfl
    simp only [chunkLen, page_size, hlen]
    omega
  · intro t ht
    apply image16Fixed_byte_zero
    simp only [page_size]
    omega

theorem image16Fixed_chunk416 : chunkOK image16Fixed 416 = true := by
  show check_page (page_size * 416) (fun jj => image16Fixed.byte (page_size * 416 + jj))
    (chunkLen image16Fixed.len 416) = true
  rw [check_page_iff]
  intro i hi
  have h512 : chunkLen image16Fixed.len 416 / 8 = 512 := by decide
  rw [h512] at hi
  constructor
  · intro h4
    interval_cases i
    · decide
    · decide
    · decide
    · decide
  · intro h4
    apply readWordLE_eq_zero
    intro t ht
    show image16Fixed.byte (page_size * 416 + (8 * i + t)) = 0
    apply image16Fixed_byte_zero
    simp only [page_size]
    omega

set_option maxRecDepth 10000 in
/-- C3 counterexample: on the 16 MiB image whose page at 0x1A0000 carries the
quadwords {0x1A1001, 0x1A3001, 0x1A5001, 0x1A7001}, the finder does not
return the claimed start block; it fails with the `Initialization` error,
because `check_page` requires quadword `i` to equal
`0x1A0000 + ((i * 8) << 9) + 0x1001` and already at `i = 1` the image holds
0x1A3001 instead of 0x1A2001. -/
theorem find_image16_counterexample :
    find image16 =
      Except.error (Error.Initialization "unable to find x86_pae dtb in lowstub < 16M") ∧
    find image16 ≠ Except.ok ⟨Architecture.X86Pae, 0, 0x1A0000⟩ := by
  have herr : find image16 =
      Except.error (Error.Initialization "unable to find x86_pae dtb in lowstub < 16M") := by
    apply find_eq_error_of_all_false
    intro k hk
    have hk' : k < 4096 := by
      have hn : numChunks image16.len = 4096 := by decide
      omega
    by_cases h416 : k = 416
    · subst h416
      decide
    · exact image16_chunk_false hk' h416
  refine ⟨herr, ?_⟩
  rw [herr]
  intro h
  exact Except.noConfusion h

/-- C3 amended: with the quadwords the code actually requires at 0x1A0000 —
`Q[i] = 0x1A0000 + ((i * 8) << 9) + 0x1001`, that is
{0x1A1001, 0x1A2001, 0x1A3001, 0x1A4001} — the finder returns
`StartBlock {arch: X86Pae, kernel_hint: 0, dtb: 0x1A0000}`. -/
theorem find_image16Fixed_ok :
    find image16Fixed = Except.ok ⟨Architecture.X86Pae, 0, 0x1A0000⟩ := by
  have hbefore : ∀ j, j < 416 → chunkOK image16Fixed j = false := by
    intro j hj
    exact image16Fixed_chunk_false (by omega) (by omega)
  have h := find_eq_ok_first image16Fixed 416 (by decide) image16Fixed_chunk416 hbefore
  rw [show page_size * 416 = 0x1A0000 from by decide] at h
  exact h

theorem walkLoop_le {σ ε : Type} (read : Nat → Except ε Nat) (cb : σ → Nat → σ × Bool)
    (mb : Nat) : ∀ fuel entry s,
    (walkLoop read cb mb fuel entry s).calls.length ≤ fuel ∧
    (walkLoop read cb mb fuel entry s).reads ≤ fuel := by
  intro fuel
  induction fuel with
  | zero =>
    intro entry s
    exact ⟨Nat.le_refl 0, Nat.le_refl 0⟩
  | succ fuel ih =>
    intro entry s
    simp only [walkLoop]
    by_cases hc : (cb s entry).2 = false
    · rw [if_pos hc]
      exact ⟨by simp, by simp⟩
    · rw [if_neg hc]
      cases hr : read entry with
      | error e => exact ⟨by simp, by simp⟩
      | ok next =>
        dsimp only
        by_cases hnext : next = 0 ∨ next % 8 ≠ 0 ∨ next = mb
        · rw [if_pos hnext]
          exact ⟨by simp, by simp⟩
        · rw [if_neg hnext]
          have h := ih next (cb s entry).1
          constructor
          · simpa using Nat.succ_le_succ h.1
          · simpa using Nat.succ_le_succ h.2

theorem walkLoop_head {σ ε : Type} (read : Nat → Except ε Nat) (cb : σ → Nat → σ × Bool)
    (mb fuel entry : Nat) (s : σ) :
    ∃ rest, (walkLoop read cb mb (fuel + 1) entry s).calls = entry :: rest := by
  simp only [walkLoop]
  by_cases hc : (cb s entry).2 = false
  · rw [if_pos hc]
    exact ⟨[], rfl⟩
  · rw [if_neg hc]
    cases hr : read entry with
    | error e => exact ⟨[], rfl⟩
    | ok next =>
      dsimp only
      by_cases hnext : next = 0 ∨ next % 8 ≠ 0 ∨ next = mb
      · rw [if_pos hnext]
        exact ⟨[], rfl⟩
      · rw [if_neg hnext]
        exact ⟨_, rfl⟩

/-- C5: for every starting module base, memory state and callback, the
module-list walk invokes its callback at most `MAX_ITER_COUNT = 65536` times
and issues at most that many list-link reads, regardless of list contents
(including circular or self-referencing lists). -/
theorem module_entry_list_callback_bounded {σ ε : Type} (read : Nat → Except ε Nat)
    (cb : σ → Nat → σ × Bool) (module_base : Nat) (s : σ) :
    (module_entry_list_callback read cb module_base s).calls.length ≤ MAX_ITER_COUNT ∧
    (module_entry_list_callback read cb module_base s).reads ≤ MAX_ITER_COUNT :=
  walkLoop_le read cb module_base MAX_ITER_COUNT module_base s

/-- C9: the walk always delivers `module_base` itself — the list-head
sentinel — as the first callback argument, before any memory is read (the
statement holds for every `read`, including one that always fails), so the
callback is invoked at least once. -/
theorem module_entry_list_callback_head {σ ε : Type} (read : Nat → Except ε Nat)
    (cb : σ → Nat → σ × Bool) (module_base : Nat) (s : σ) :
    (∃ rest, (module_entry_list_callback read cb module_base s).calls
        = module_base :: rest) ∧
    (module_entry_list_callback read cb module_base s).calls ≠ [] := by
  obtain ⟨rest, hrest⟩ :=
    walkLoop_head read cb module_base 65535 module_base s
  have hcalls : (module_entry_list_callback read cb module_base s).calls
      = module_base :: rest := hrest
  refine ⟨⟨rest, hcalls⟩, ?_⟩
  rw [hcalls]
  intro h
  exact List.noConfusion h

theorem lor_four_of_aligned {H : Nat} (h : H % 8 = 0) : H ||| 4 = H + 4 := by
  obtain ⟨k, rfl⟩ : ∃ k, H = 8 * k := ⟨H / 8, by omega⟩
  have h4 : (4 : Nat) = Nat.bit false (Nat.bit false (Nat.bit true 0)) := by
    simp [Nat.bit_val]
  have h8 : 8 * k = Nat.bit false (Nat.bit false (Nat.bit false k)) := by
    simp [Nat.bit_val]
    ring
  rw [h4, h8, Nat.lor_bit, Nat.lor_bit, Nat.lor_bit, Nat.or_zero]
  simp [Nat.bit_val]
  ring

theorem walkLoop_succ_eq {σ ε : Type} (read : Nat → Except ε Nat)
    (cb : σ → Nat → σ × Bool) (mb fuel entry : Nat) (s : σ) :
    walkLoop read cb mb (fuel + 1) entry s =
      if (cb s entry).2 = false then ⟨[entry], 0, (cb s entry).1, Except.ok ()⟩
      else
        match read entry with
        | Except.error e => ⟨[entry], 1, (cb s entry).1, Except.error e⟩
        | Except.ok next =>
          if next = 0 ∨ next % 8 ≠ 0 ∨ next = mb then
            ⟨[entry], 1, (cb s entry).1, Except.ok ()⟩
          else
            let r := walkLoop read cb mb fuel next (cb s entry).1
            ⟨entry :: r.calls, r.reads + 1, r.state, r.result⟩ := rfl

/-- C2 amended: with a head H (8-byte aligned) whose Flink links to a single
entry E, and E's Flink equal to H ||| 0b100, the walk invokes the callback
exactly twice — first with the head H, then with E — and returns Ok(()). The
code always delivers the list head itself to the callback first, so the
original claim's "exactly once, with E and never with the head H" does not
hold; the rest of the claim (termination on the misaligned link, no error)
does. -/
theorem module_entry_list_callback_single_entry {σ ε : Type}
    (read : Nat → Except ε Nat) (cb : σ → Nat → σ × Bool) (H E : Nat) (s : σ)
    (hH8 : H % 8 = 0)
    (hreadH : read H = Except.ok E)
    (hreadE : read E = Except.ok (H ||| 4))
    (hE0 : E ≠ 0) (hE8 : E % 8 = 0) (hEH : E ≠ H)
    (hcb1 : (cb s H).2 = true) (hcb2 : (cb (cb s H).1 E).2 = true) :
    (module_entry_list_callback read cb H s).calls = [H, E] ∧
    (module_entry_list_callback read cb H s).result = Except.ok () := by
  have hmis : (H ||| 4) % 8 = 4 := by
    rw [lor_four_of_aligned hH8]
    omega
  have hinner : walkLoop read cb H 65535 E (cb s H).1
      = ⟨[E], 1, (cb (cb s H).1 E).1, Except.ok ()⟩ := by
    rw [show (65535 : Nat) = 65534 + 1 from rfl, walkLoop_succ_eq]
    rw [if_neg (by simp [hcb2]), hreadE]
    dsimp only
    rw [if_pos (Or.inr (Or.inl (by rw [hmis]; decide)))]
  have houter : module_entry_list_callback read cb H s
      = ⟨[H, E], 2, (cb (cb s H).1 E).1, Except.ok ()⟩ := by
    show walkLoop read cb H MAX_ITER_COUNT H s = _
    rw [show MAX_ITER_COUNT = 65535 + 1 from rfl, walkLoop_succ_eq]
    rw [if_neg (by simp [hcb1]), hreadH]
    dsimp only
    rw [if_neg (by rintro (h | h | h); exacts [hE0 h, h hE8, hEH h]), hinner]
  exact ⟨by rw [houter], by rw [houter]⟩

/-- C2 counterexample: on the list head H = 0x1000 linking to the single
entry E = 0x2000 with E's Flink = H | 0b100, an always-continue callback is
invoked twice (with the head 0x1000 and then with 0x2000) and the walk
returns Ok(()) — not "exactly once, with E and never with the head H" as the
claim states. -/
theorem module_entry_list_callback_counterexample :
    (module_entry_list_callback readC2 (fun (_ : Unit) _ => ((), true)) 0x1000 ()).calls
      = [0x1000, 0x2000] ∧
    (module_entry_list_callback readC2 (fun (_ : Unit) _ => ((), true)) 0x1000 ()).result
      = Except.ok () ∧
    (module_entry_list_callback readC2 (fun (_ : Unit) _ => ((), true)) 0x1000 ()).calls
      ≠ [0x2000] :=
  ⟨by decide, rfl, by decide⟩

/-- Witness for the amended C2 at H = 0x1000, E = 0x2000 under `readC2`. -/
theorem module_entry_list_callback_single_entry_witness :
    (module_entry_list_callback readC2 (fun (_ : Unit) _ => ((), true)) 0x1000 ()).calls
      = [0x1000, 0x2000] ∧
    (module_entry_list_callback readC2 (fun (_ : Unit) _ => ((), true)) 0x1000 ()).result
      = Except.ok () :=
  module_entry_list_callback_single_entry readC2 (fun (_ : Unit) _ => ((), true))
    0x1000 0x2000 () (by decide) rfl rfl (by decide) (by decide)
    (by decide) rfl rfl

theorem chunkLen_last (len : Nat) (h : 0 < len % page_size) :
    numChunks len = len / page_size + 1 ∧
    chunkLen len (numChunks len - 1) = len % page_size := by
  simp only [numChunks, chunkLen, page_size] at h ⊢
  omega

/-- C10: when the buffer ends in a final page chunk shorter than 8 bytes,
`check_page` accepts that chunk vacuously (`chunks_exact(8)` yields no
complete word), so `find` can never return the `Initialization` error, and
when no earlier chunk matches it returns the final chunk's address as the
DTB; more generally, a final chunk shorter than 32 bytes is accepted exactly
when the complete 8-byte words it does contain match the signature words
(the zero-check for words 4 and beyond is never exercised). -/
theorem find_partial_final_chunk (buf : Buffer) (h1 : 0 < buf.len % page_size) :
    (buf.len % page_size < 8 →
      chunkOK buf (numChunks buf.len - 1) = true ∧
      (∀ e, find buf ≠ Except.error e) ∧
      ((∀ j, j < numChunks buf.len - 1 → chunkOK buf j = false) →
        find buf = Except.ok
          ⟨Architecture.X86Pae, 0, page_size * (numChunks buf.len - 1)⟩)) ∧
    (buf.len % page_size < 32 →
      (chunkOK buf (numChunks buf.len - 1) = true ↔
        ∀ i, i < buf.len % page_size / 8 →
          readWordLE (fun j => buf.byte (page_size * (numChunks buf.len - 1) + j)) (8 * i)
            = paeWord (page_size * (numChunks buf.len - 1)) i)) := by
  obtain ⟨hnum, hclen⟩ := chunkLen_last buf.len h1
  have hiff : ∀ hr : buf.len % page_size < 32,
      chunkOK buf (numChunks buf.len - 1) = true ↔
        ∀ i, i < buf.len % page_size / 8 →
          readWordLE (fun j => buf.byte (page_size * (numChunks buf.len - 1) + j)) (8 * i)
            = paeWord (page_size * (numChunks buf.len - 1)) i := by
    intro hr
    show check_page (page_size * (numChunks buf.len - 1))
        (fun j => buf.byte (page_size * (numChunks buf.len - 1) + j))
        (chunkLen buf.len (numChunks buf.len - 1)) = true ↔ _
    rw [check_page_iff, hclen]
    constructor
    · intro h i hi
      exact (h i hi).1 (by omega)
    · intro h i hi
      exact ⟨fun _ => h i hi, fun h4 => absurd hi (by omega)⟩
  refine ⟨?_, hiff⟩
  intro h8
  have hok : chunkOK buf (numChunks buf.len - 1) = true := by
    rw [hiff (h8.trans (by norm_num))]
    intro i hi
    rw [Nat.div_eq_of_lt h8] at hi
    exact absurd hi (Nat.not_lt_zero i)
  have hlast_lt : numChunks buf.len - 1 < numChunks buf.len := by
    rw [hnum, Nat.add_sub_cancel]
    exact Nat.lt_succ_self _
  refine ⟨hok, ?_, ?_⟩
  · intro e he
    obtain ⟨m, hmk, hm, hmin⟩ := exists_least_chunkOK buf _ hok
    rw [find_eq_ok_first buf m (by omega) hm hmin] at he
    exact Except.noConfusion he
  · intro hbefore
    exact find_eq_ok_first buf _ hlast_lt hok hbefore

/-- Witness for C10 at the concrete five-byte zero buffer. -/
theorem find_partial_final_chunk_witness :
    chunkOK tinyBuf 0 = true ∧ find tinyBuf = Except.ok ⟨Architecture.X86Pae, 0, 0⟩ := by
  obtain ⟨hok, -, hfind⟩ := (find_partial_final_chunk tinyBuf (by decide)).1 (by decide)
  have h0 : numChunks tinyBuf.len - 1 = 0 := by decide
  rw [h0] at hok hfind
  have hf := hfind fun j hj => absurd hj (Nat.not_lt_zero j)
  refine ⟨hok, ?_⟩
  simpa using hf

/-- C4: under the invariant that `module_info_wow64` is present exactly when
`wow64` is non-null, `module_info()` never panics: it returns the value held
by `module_info_wow64` when `wow64` is non-null and `module_info_native`
when `wow64` is null; and `module_info_native()` returns the native list
info in both cases. -/
theorem module_info_spec (p : Win32ProcessInfo)
    (hinv : p.module_info_wow64.isSome ↔ p.wow64 ≠ 0) :
    p.module_info.isSome = true ∧
    (∀ v, p.module_info_wow64 = some v → p.wow64 ≠ 0 → p.module_info = some v) ∧
    (p.wow64 = 0 → p.module_info = some p.module_info_native) ∧
    p.module_info_native' = p.module_info_native := by
  refine ⟨?_, ?_, ?_, rfl⟩
  · show (if p.wow64 ≠ 0 then p.module_info_wow64 else some p.module_info_native).isSome = true
    by_cases hw : p.wow64 ≠ 0
    · rw [if_pos hw]
      exact hinv.mpr hw
    · rw [if_neg hw]
      rfl
  · intro v hv hw
    show (if p.wow64 ≠ 0 then p.module_info_wow64 else some p.module_info_native) = some v
    rw [if_pos hw, hv]
  · intro h0
    show (if p.wow64 ≠ 0 then p.module_info_wow64 else some p.module_info_native)
      = some p.module_info_native
    rw [if_neg fun hc => hc h0]

/-- Witness for C4 at the concrete WoW64 process `demoProc`. -/
theorem module_info_spec_witness :
    demoProc.module_info = some demoWow64 ∧ demoProc.module_info.isSome = true := by
  have h := module_info_spec demoProc (by decide)
  exact ⟨h.2.1 demoWow64 rfl (by decide), h.1⟩

end Win32

namespace Memflow

/-- C6: `Pointer32::try_from` on a u64 succeeds with a pointer of the same
address if and only if the value is at most 0xFFFF_FFFF and fails with the
out-of-bounds error (`Error::Bounds`) otherwise; conversion from `Address`
behaves identically; in particular `try_from 0x1_0000_0000` fails. -/
theorem try_from_spec (x : Nat) :
    (x ≤ 0xFFFFFFFF → Pointer32.try_from x = Except.ok ⟨x⟩) ∧
    (0xFFFFFFFF < x → Pointer32.try_from x = Except.error Error.Bounds) ∧
    Pointer32.try_from_address x = Pointer32.try_from x ∧
    Pointer32.try_from 0x100000000 = Except.error Error.Bounds := by
  refine ⟨?_, ?_, rfl, rfl⟩
  · intro h
    show (if x ≤ 0xFFFFFFFF then Except.ok (⟨x⟩ : Pointer32) else Except.error Error.Bounds)
      = Except.ok ⟨x⟩
    rw [if_pos h]
  · intro h
    show (if x ≤ 0xFFFFFFFF then Except.ok (⟨x⟩ : Pointer32) else Except.error Error.Bounds)
      = Except.error Error.Bounds
    rw [if_neg (by omega)]

/-- Witness for C6 at the in-range value 0x1234 and the out-of-range value
0x1_0000_0000. -/
theorem try_from_spec_witness :
    Pointer32.try_from 0x1234 = Except.ok ⟨0x1234⟩ ∧
    Pointer32.try_from 0x100000000 = Except.error Error.Bounds :=
  ⟨(try_from_spec 0x1234).1 (by decide), (try_from_spec 0x100000000).2.1 (by decide)⟩

/-- C7 counterexample: adding 1 to a `Pointer32<u8>` at address 0xFFFF_FFFF
wraps around to 0 instead of saturating at 0xFFFF_FFFF as the claim
states. -/
theorem add_saturates_counterexample :
    Pointer32.add 1 ⟨0xFFFFFFFF⟩ 1 = (⟨0⟩ : Pointer32) ∧
    Pointer32.add 1 ⟨0xFFFFFFFF⟩ 1 ≠ (⟨0xFFFFFFFF⟩ : Pointer32) :=
  ⟨by decide, by decide⟩

/-- C7 amended: `p + i` scales by `size_of::<T>()` and wraps modulo 2^32
(truncating u32 arithmetic) rather than saturating; the result is the exact
scaled sum whenever that sum fits in 32 bits. -/
theorem add_wraps (sizeT : Nat) (p : Pointer32) (i : Nat)
    (hp : p.address < U32_LIMIT) :
    (Pointer32.add sizeT p i).address = (p.address + i * sizeT) % U32_LIMIT ∧
    (p.address + i * sizeT < U32_LIMIT →
      (Pointer32.add sizeT p i).address = p.address + i * sizeT) := by
  have h1 : (Pointer32.add sizeT p i).address
      = (p.address + (i * sizeT) % U32_LIMIT) % U32_LIMIT := rfl
  simp only [h1, U32_LIMIT] at *
  constructor
  · omega
  · intro h
    omega

/-- Witness for the amended C7: `Pointer32::<u32>::from(0x1000) + 2` has
address 0x1008. -/
theorem add_wraps_witness :
    (Pointer32.add 4 ⟨0x1000⟩ 2).address = 0x1008 :=
  ((add_wraps 4 ⟨0x1000⟩ 2 (by decide)).2 (by decide)).trans (by decide)

/-- C8 counterexample: for the array pointer `Pointer32<[u32]>` at address
0xFFFF_FFFF, `at(1)` wraps: its address is 3 while
`p.as_u64() + 1 * size_of::<u32>()` is 0x1_0000_0003, so the claimed
equation fails at this input. -/
theorem at_overflow_counterexample :
    (Pointer32.at' 4 ⟨0xFFFFFFFF⟩ 1).as_u64 = 3 ∧
    Pointer32.as_u64 ⟨0xFFFFFFFF⟩ + 1 * 4 = 0x100000003 ∧
    (Pointer32.at' 4 ⟨0xFFFFFFFF⟩ 1).as_u64
      ≠ Pointer32.as_u64 ⟨0xFFFFFFFF⟩ + 1 * 4 :=
  ⟨by decide, by decide, by decide⟩

/-- C8 amended: `p.at(i).as_u64() = p.as_u64() + i * size_of::<T>()` holds
whenever the scaled sum stays within the 32-bit address space (the unrounded
claim fails on overflow, where `at` wraps modulo 2^32); `(p + i) - i = p`
for every in-range pointer; and concretely
`Pointer32::<u32>::from(0x1000).at(2).as_u32() = 0x1008`. -/
theorem at_add_sub_spec (sizeT : Nat) (p : Pointer32) (i : Nat)
    (hp : p.address < U32_LIMIT) :
    (p.as_u64 + i * sizeT < U32_LIMIT →
      (Pointer32.at' sizeT p i).as_u64 = p.as_u64 + i * sizeT) ∧
    Pointer32.sub sizeT (Pointer32.add sizeT p i) i = p ∧
    (Pointer32.at' 4 ⟨0x1000⟩ 2).as_u32 = 0x1008 := by
  obtain ⟨a⟩ := p
  refine ⟨?_, ?_, by decide⟩
  · intro h
    show (a + (i * sizeT) % U32_LIMIT) % U32_LIMIT = a + i * sizeT
    simp only [U32_LIMIT] at *
    have ha : Pointer32.as_u64 ⟨a⟩ = a := rfl
    rw [ha] at h
    omega
  · show (⟨((a + (i * sizeT) % U32_LIMIT) % U32_LIMIT + U32_LIMIT
      - (i * sizeT) % U32_LIMIT) % U32_LIMIT⟩ : Pointer32) = ⟨a⟩
    have : ((a + (i * sizeT) % U32_LIMIT) % U32_LIMIT + U32_LIMIT
        - (i * sizeT) % U32_LIMIT) % U32_LIMIT = a := by
      simp only [U32_LIMIT] at *
      omega
    rw [this]

/-- Witness for the amended C8 at `Pointer32::<u32>::from(0x1000)` and
index 2. -/
theorem at_add_sub_spec_witness :
    (Pointer32.at' 4 ⟨0x1000⟩ 2).as_u64 = 0x1008 ∧
    Pointer32.sub 4 (Pointer32.add 4 ⟨0x1000⟩ 2) 2 = ⟨0x1000⟩ := by
  have h := at_add_sub_spec 4 ⟨0x1000⟩ 2 (by decide)
  exact ⟨(h.1 (by decide)).trans (by decide), h.2.1⟩

end Memflow
